import Mathlib

/-!
Shallow embedding of the real-time delivery subsystem of the wantok
repository (package `internal/realtime`: `client.go` and `hub.go`,
together with the message-send handler in `internal/handlers/messages.go`
and the WebSocket upgrade entry point in `internal/handlers/websocket.go`).

Go channels are modelled as FIFO lists together with a closed flag;
sending on a closed channel and closing a closed channel are Go runtime
panics, modelled by `Option` results (`none` = panic).  Go maps are
modelled as association lists with first-occurrence lookup.
-/

namespace Wantok

/-- Serialized message bytes (`[]byte` in the source), abstracted as a string. -/
abbrev Data := String

/-- From `NewClient`: `send: make(chan []byte, 256)` — the per-client outbound
queue capacity. -/
def clientSendCap : Nat := 256

/-- From `NewHub`: `broadcast: make(chan *UserMessage, 256)` — the hub's
notification ingress queue capacity. -/
def hubBroadcastCap : Nat := 256

/-- `Client` (client.go): one WebSocket connection bound to one authenticated
user.  The buffered channel `send chan []byte` is modelled by the list
`send` (FIFO contents) together with `sendClosed`. -/
structure Client where
  userID : Int
  send : List Data
  sendClosed : Bool
deriving DecidableEq, Repr

/-- `NewClient` (client.go): fresh client with an empty, open send channel of
capacity `clientSendCap`. -/
def NewClient (uid : Int) : Client :=
  { userID := uid, send := [], sendClosed := false }

/-- `Client.Send` (client.go):
`select { case c.send <- data: return true; default: return false }`.
A send on a closed channel panics in Go (`none`); otherwise the envelope is
appended if the buffer has room (`true`) and dropped if it is full (`false`). -/
def Client.Send (c : Client) (data : Data) : Option (Bool × Client) :=
  if c.sendClosed then none
  else if c.send.length < clientSendCap then
    some (true, { c with send := c.send ++ [data] })
  else some (false, c)

/-- `Client.Close` (client.go): `close(c.send)`.  Closing an already-closed
channel panics in Go (`none`). -/
def Client.Close (c : Client) : Option Client :=
  if c.sendClosed then none else some { c with sendClosed := true }

/-- Result of the outbound loop's receive `message, ok := <-c.send`
(client.go, `WritePump`). -/
inductive RecvResult
  | msg (d : Data) (c : Client)
  | closedEnd
  | blocked
deriving DecidableEq, Repr

/-- Receive from the send channel as in `WritePump`: buffered items are
delivered first even after close; `ok = false` (`closedEnd`) is observed only
once the channel is closed and drained; an open empty channel blocks. -/
def Client.recv (c : Client) : RecvResult :=
  match c.send with
  | d :: rest => RecvResult.msg d { c with send := rest }
  | [] => if c.sendClosed then RecvResult.closedEnd else RecvResult.blocked

/-- Association-list lookup, modelling Go map indexing (first occurrence). -/
def alLookup {α β : Type} [DecidableEq α] : List (α × β) → α → Option β
  | [], _ => none
  | (k, v) :: rest, k' => if k = k' then some v else alLookup rest k'

/-- Association-list insert/replace, modelling Go map assignment `m[k] = v`. -/
def alInsert {α β : Type} [DecidableEq α] : List (α × β) → α → β → List (α × β)
  | [], k, v => [(k, v)]
  | (k', v') :: rest, k, v =>
    if k' = k then (k, v) :: rest else (k', v') :: alInsert rest k v

/-- Association-list erase, modelling Go `delete(m, k)`. -/
def alErase {α β : Type} [DecidableEq α] : List (α × β) → α → List (α × β)
  | [], _ => []
  | (k', v') :: rest, k =>
    if k' = k then rest else (k', v') :: alErase rest k

/-- Insertion into the inner `map[*Client]bool` set: `m[client] = true`. -/
def setInsert (s : List Nat) (x : Nat) : List Nat :=
  if x ∈ s then s else s ++ [x]

/-- `Hub` (hub.go).  `clients map[int64]map[*Client]bool` is the association
list from user ID to the set of that user's client identifiers; `pool` gives
each client identifier its current state (the heap the `*Client` pointers
point into); `broadcastQ` is the contents of the buffered `broadcast`
channel; `pendingUnregister` records unregister requests spawned by the
fan-out's `go func(c) { h.unregister <- c }` goroutines that the loop has not
yet serviced. -/
structure Hub where
  clients : List (Int × List Nat)
  pool : List (Nat × Client)
  broadcastQ : List (Int × Data)
  pendingUnregister : List Nat
deriving DecidableEq, Repr

/-- `NewHub` (hub.go): empty map, empty channels. -/
def NewHub : Hub :=
  { clients := [], pool := [], broadcastQ := [], pendingUnregister := [] }

/-- `Hub.ClientCount` (hub.go): `len(h.clients[userID])` (a `nil` map has
length 0). -/
def Hub.ClientCount (h : Hub) (uid : Int) : Nat :=
  ((alLookup h.clients uid).getD []).length

/-- `Hub.IsOnline` (hub.go): `h.ClientCount(userID) > 0`. -/
def Hub.IsOnline (h : Hub) (uid : Int) : Bool :=
  0 < h.ClientCount uid

/-- The `case client := <-h.register:` arm of `Hub.Run`: create the user's
set if absent and insert the client. -/
def Hub.processRegister (h : Hub) (cid : Nat) : Hub :=
  match alLookup h.pool cid with
  | none => h
  | some c =>
    let ids := (alLookup h.clients c.userID).getD []
    { h with clients := alInsert h.clients c.userID (setInsert ids cid) }

/-- The `case client := <-h.unregister:` arm of `Hub.Run`: if the client is
present under its user, delete it, close its send channel, and drop the
user's entry when the set became empty.  `none` models the panic of a double
close. -/
def Hub.processUnregister (h : Hub) (cid : Nat) : Option Hub :=
  match alLookup h.pool cid with
  | none => some h
  | some c =>
    match alLookup h.clients c.userID with
    | none => some h
    | some ids =>
      if cid ∈ ids then
        match c.Close with
        | none => none
        | some c' =>
          let ids' := ids.filter (fun x => x != cid)
          let clients' :=
            if ids'.isEmpty then alErase h.clients c.userID
            else alInsert h.clients c.userID ids'
          some { h with clients := clients', pool := alInsert h.pool cid c' }
      else some h

/-- The fan-out loop body of the `case userMsg := <-h.broadcast:` arm:
`for client := range clients { if !client.Send(data) { go h.unregister <- c } }`.
A failed (full-buffer) enqueue appends the client to the pending unregister
requests; a send on a closed channel panics (`none`). -/
def sendAll (pool : List (Nat × Client)) (pending : List Nat) (ids : List Nat)
    (data : Data) : Option (List (Nat × Client) × List Nat) :=
  match ids with
  | [] => some (pool, pending)
  | cid :: rest =>
    match alLookup pool cid with
    | none => sendAll pool pending rest data
    | some c =>
      match c.Send data with
      | none => none
      | some (true, c') => sendAll (alInsert pool cid c') pending rest data
      | some (false, _) => sendAll pool (pending ++ [cid]) rest data

/-- The `case userMsg := <-h.broadcast:` arm of `Hub.Run` applied to a
dequeued user message: snapshot the target user's client set and fan the
data out to each client. -/
def Hub.processBroadcast (h : Hub) (uid : Int) (data : Data) : Option Hub :=
  (sendAll h.pool h.pendingUnregister ((alLookup h.clients uid).getD []) data).map
    (fun r => { h with pool := r.1, pendingUnregister := r.2 })

/-- One iteration of `Hub.Run` that selects the broadcast channel: dequeue
the head user message and fan it out. -/
def Hub.processBroadcastStep (h : Hub) : Option Hub :=
  match h.broadcastQ with
  | [] => some h
  | (uid, data) :: rest => Hub.processBroadcast { h with broadcastQ := rest } uid data

/-- `Hub.SendToUser` (hub.go): marshal the message (the marshal result is
passed in, `none` = `json.Marshal` error, which is logged and returns), then
`select { case h.broadcast <- msg: default: /* drop, log */ }`. -/
def Hub.SendToUser (h : Hub) (uid : Int) (marshaled : Option Data) : Hub :=
  match marshaled with
  | none => h
  | some data =>
    if h.broadcastQ.length < hubBroadcastCap then
      { h with broadcastQ := h.broadcastQ ++ [(uid, data)] }
    else h

/-- Owner discipline of the hub state: every client identifier listed in the
`clients` map is in the pool, belongs to that user, and its send channel is
open (the hub closes a channel exactly when it removes the client). -/
def ownerOK (h : Hub) : Bool :=
  h.clients.all fun p => p.2.all fun cid =>
    match alLookup h.pool cid with
    | some c => c.userID == p.1 && !c.sendClosed
    | none => false

/-- Well-formedness of a hub state: map keys are unique, each user's client
set is duplicate-free and non-empty, and the owner discipline holds. -/
@[reducible] def WF (h : Hub) : Prop :=
  (h.clients.map Prod.fst).Nodup ∧
  (∀ p ∈ h.clients, (p.2 : List Nat).Nodup) ∧
  (∀ p ∈ h.clients, p.2 ≠ []) ∧
  ownerOK h = true

/-- The invariant of the user map: every user present in the map has a
non-empty set of sessions (no empty-but-present entries). -/
@[reducible] def nonEmptyInv (h : Hub) : Prop := ∀ p ∈ h.clients, p.2 ≠ []

/-- Observable events of the message-send handler
(`HandleSendMessage`, messages.go): the `CreateMessage` store call with its
outcome, and each `hub.SendToUser` notification. -/
inductive HEvent
  | create (sender recipient : Int) (ok : Bool)
  | notify (uid : Int)
deriving DecidableEq, Repr

/-- Abstracted inputs of one request to the message-send handler:
the parse of the `{userID}` path value, the authenticated sender, and the
outcomes of the form parse, content validation, recipient lookup and
`CreateMessage` call. -/
structure SendMessageRequest where
  pathUserID : Option Int
  senderID : Int
  parseFormOk : Bool
  contentValid : Bool
  recipientExists : Bool
  createOk : Bool
deriving DecidableEq, Repr

/-- `HandleSendMessage` (messages.go), as the sequence of store/hub events it
performs: parse the recipient ID, reject self-messages, parse the form,
validate the content, look up the recipient, persist via `CreateMessage`,
and only on successful persistence call `SendToUser` for the recipient and
then for the sender. -/
def HandleSendMessage (r : SendMessageRequest) : List HEvent :=
  match r.pathUserID with
  | none => []
  | some recipientID =>
    if recipientID = r.senderID then []
    else if !r.parseFormOk then []
    else if !r.contentValid then []
    else if !r.recipientExists then []
    else if r.createOk then
      [HEvent.create r.senderID recipientID true,
       HEvent.notify recipientID, HEvent.notify r.senderID]
    else [HEvent.create r.senderID recipientID false]

/-- An incoming HTTP upgrade request, abstracted to the fields the origin
check could inspect. -/
structure HTTPRequest where
  origin : Option String
  authenticated : Bool
deriving DecidableEq, Repr

/-- The `upgrader`'s `CheckOrigin` (websocket.go): `func(r) bool { return true }`. -/
def CheckOrigin (_ : HTTPRequest) : Bool := true

/-- A fresh open client of user 7 used in concrete witness states. -/
def demoClient : Client := { userID := 7, send := [], sendClosed := false }

/-- A client of user 7 whose outbound queue is at capacity. -/
def fullClient : Client :=
  { userID := 7, send := List.replicate clientSendCap "m", sendClosed := false }

/-- A concrete well-formed hub: user 7 has clients 1 (room in its queue) and
2 (queue at capacity), and one broadcast for user 7 is pending. -/
def demoHub : Hub :=
  { clients := [(7, [1, 2])],
    pool := [(1, demoClient), (2, fullClient)],
    broadcastQ := [(7, "env")],
    pendingUnregister := [] }

/-- A hub whose notification ingress queue is full. -/
def hubFull : Hub :=
  { clients := [], pool := [],
    broadcastQ := List.replicate hubBroadcastCap (7, "x"),
    pendingUnregister := [] }

/-- A hub in which client 1 of user 7 has been constructed (`NewClient`) but
not yet admitted. -/
def cexHub : Hub :=
  { clients := [], pool := [(1, NewClient 7)], broadcastQ := [], pendingUnregister := [] }

/-- A message-send request in which every step succeeds: recipient 5,
sender 3. -/
def sendReqOK : SendMessageRequest :=
  { pathUserID := some 5, senderID := 3, parseFormOk := true, contentValid := true,
    recipientExists := true, createOk := true }

/-! ### Association-list lemmas -/

theorem alLookup_insert_self {α β : Type} [DecidableEq α] (m : List (α × β)) (k : α) (v : β) :
    alLookup (alInsert m k v) k = some v := by
  induction m with
  | nil => simp [alInsert, alLookup]
  | cons p rest ih =>
    obtain ⟨k₀, v₀⟩ := p
    by_cases hk : k₀ = k
    · subst hk
      simp [alInsert, alLookup]
    · simp [alInsert, alLookup, hk, ih]

theorem alLookup_insert_ne {α β : Type} [DecidableEq α] (m : List (α × β)) (k k' : α) (v : β)
    (hne : k' ≠ k) : alLookup (alInsert m k v) k' = alLookup m k' := by
  have hkk : k ≠ k' := Ne.symm hne
  induction m with
  | nil => simp [alInsert, alLookup, hkk]
  | cons p rest ih =>
    obtain ⟨k₀, v₀⟩ := p
    by_cases hk : k₀ = k
    · subst hk
      simp [alInsert, alLookup, hkk]
    · by_cases hk' : k₀ = k'
      · subst hk'
        simp [alInsert, alLookup, hk]
      · simp [alInsert, alLookup, hk, hk', ih]

theorem alLookup_erase_ne {α β : Type} [DecidableEq α] (m : List (α × β)) (k k' : α)
    (hne : k' ≠ k) : alLookup (alErase m k) k' = alLookup m k' := by
  induction m with
  | nil => simp [alErase]
  | cons p rest ih =>
    obtain ⟨k₀, v₀⟩ := p
    by_cases hk : k₀ = k
    · subst hk
      simp [alErase, alLookup, Ne.symm hne]
    · by_cases hk' : k₀ = k'
      · subst hk'
        simp [alErase, alLookup, hk]
      · simp [alErase, alLookup, hk, hk', ih]

theorem alLookup_eq_none_of_not_mem_keys {α β : Type} [DecidableEq α] (m : List (α × β))
    (k : α) (h : k ∉ m.map Prod.fst) : alLookup m k = none := by
  induction m with
  | nil => simp [alLookup]
  | cons p rest ih =>
    obtain ⟨k₀, v₀⟩ := p
    simp only [List.map_cons, List.mem_cons] at h
    push_neg at h
    have hk : k₀ ≠ k := fun he => h.1 he.symm
    simp [alLookup, hk, ih h.2]

theorem alLookup_erase_self {α β : Type} [DecidableEq α] (m : List (α × β)) (k : α)
    (hnd : (m.map Prod.fst).Nodup) : alLookup (alErase m k) k = none := by
  induction m with
  | nil => simp [alErase, alLookup]
  | cons p rest ih =>
    obtain ⟨k₀, v₀⟩ := p
    simp only [List.map_cons, List.nodup_cons] at hnd
    by_cases hk : k₀ = k
    · subst hk
      simp only [alErase, if_pos rfl]
      exact alLookup_eq_none_of_not_mem_keys rest k₀ hnd.1
    · simp only [alErase, if_neg hk, alLookup, if_neg hk]
      exact ih hnd.2

theorem alLookup_mem {α β : Type} [DecidableEq α] (m : List (α × β)) (k : α) (v : β)
    (h : alLookup m k = some v) : (k, v) ∈ m := by
  induction m with
  | nil => simp [alLookup] at h
  | cons p rest ih =>
    obtain ⟨k₀, v₀⟩ := p
    by_cases hk : k₀ = k
    · subst hk
      rw [alLookup, if_pos rfl, Option.some_inj] at h
      subst h
      exact List.mem_cons_self _ _
    · simp only [alLookup, if_neg hk] at h
      exact List.mem_cons_of_mem _ (ih h)

theorem mem_alInsert {α β : Type} [DecidableEq α] (m : List (α × β)) (k : α) (v : β)
    (p : α × β) (h : p ∈ alInsert m k v) : p ∈ m ∨ p = (k, v) := by
  induction m with
  | nil =>
    simp only [alInsert, List.mem_singleton] at h
    exact Or.inr h
  | cons q rest ih =>
    obtain ⟨k₀, v₀⟩ := q
    by_cases hk : k₀ = k
    · subst hk
      rw [alInsert, if_pos rfl] at h
      rcases List.mem_cons.mp h with h1 | h1
      · exact Or.inr h1
      · exact Or.inl (List.mem_cons_of_mem _ h1)
    · simp only [alInsert, if_neg hk, List.mem_cons] at h
      rcases h with h1 | h1
      · exact Or.inl (by simp [h1])
      · rcases ih h1 with h2 | h2
        · exact Or.inl (List.mem_cons_of_mem _ h2)
        · exact Or.inr h2

theorem mem_alErase {α β : Type} [DecidableEq α] (m : List (α × β)) (k : α)
    (p : α × β) (h : p ∈ alErase m k) : p ∈ m := by
  induction m with
  | nil => simp [alErase] at h
  | cons q rest ih =>
    obtain ⟨k₀, v₀⟩ := q
    by_cases hk : k₀ = k
    · subst hk
      rw [alErase, if_pos rfl] at h
      exact List.mem_cons_of_mem _ h
    · simp only [alErase, if_neg hk, List.mem_cons] at h
      rcases h with h1 | h1
      · simp [h1]
      · exact List.mem_cons_of_mem _ (ih h1)

/-! ### Hub helper lemmas -/

theorem ownerOK_found (h : Hub) (how : ownerOK h = true) (uid : Int) (ids : List Nat)
    (hids : alLookup h.clients uid = some ids) :
    ∀ cid ∈ ids, ∃ c, alLookup h.pool cid = some c ∧ c.userID = uid ∧
      c.sendClosed = false := by
  intro cid hcid
  have hmem := alLookup_mem h.clients uid ids hids
  rw [ownerOK, List.all_eq_true] at how
  have h1 := how (uid, ids) hmem
  rw [List.all_eq_true] at h1
  have h2 := h1 cid hcid
  cases hp : alLookup h.pool cid with
  | none => rw [hp] at h2; simp at h2
  | some c =>
    rw [hp] at h2
    simp only [Bool.and_eq_true, beq_iff_eq, Bool.not_eq_true'] at h2
    exact ⟨c, rfl, h2.1, h2.2⟩

/-- The unregister arm never panics on a well-formed hub: the only client it
ever closes is one still present in the mapping, whose channel is open. -/
theorem processUnregister_total (h : Hub) (cid : Nat) (hwf : WF h) :
    ∃ h', Hub.processUnregister h cid = some h' := by
  rw [← Option.ne_none_iff_exists']
  cases hp : alLookup h.pool cid with
  | none => simp [Hub.processUnregister, hp]
  | some c =>
    cases hcl : alLookup h.clients c.userID with
    | none => simp [Hub.processUnregister, hp, hcl]
    | some ids =>
      by_cases hmem : cid ∈ ids
      · obtain ⟨c₁, hp₁, _, hopen⟩ :=
          ownerOK_found h hwf.2.2.2 c.userID ids hcl cid hmem
        rw [hp] at hp₁
        rw [Option.some_inj] at hp₁
        subst hp₁
        have hclose : Client.Close c = some { c with sendClosed := true } := by
          simp [Client.Close, hopen]
        simp [Hub.processUnregister, hp, hcl, hmem, hclose]
      · simp [Hub.processUnregister, hp, hcl, hmem]

/-- A second unregister of the same client is a no-op: the first run removed
the client from the mapping, so the guard fails and nothing is closed. -/
theorem processUnregister_idem (h : Hub) (cid : Nat) (hwf : WF h) (h' : Hub)
    (hrun : Hub.processUnregister h cid = some h') :
    Hub.processUnregister h' cid = some h' := by
  rw [Hub.processUnregister] at hrun
  split at hrun
  next hp =>
    rw [Option.some_inj] at hrun
    subst hrun
    simp [Hub.processUnregister, hp]
  next c hp =>
    split at hrun
    next hcl =>
      rw [Option.some_inj] at hrun
      subst hrun
      simp [Hub.processUnregister, hp, hcl]
    next ids hcl =>
      split at hrun
      next hmem =>
        split at hrun
        next hclose => exact Option.noConfusion hrun
        next c' hclose =>
          simp only [Option.some_inj] at hrun
          have huid : c'.userID = c.userID := by
            rw [Client.Close] at hclose
            split at hclose
            · exact Option.noConfusion hclose
            · rw [Option.some_inj] at hclose
              subst hclose
              rfl
          subst hrun
          by_cases hE : (ids.filter (fun x => x != cid)).isEmpty = true
          · simp only [Hub.processUnregister, hE, if_true, alLookup_insert_self, huid,
              alLookup_erase_self h.clients c.userID hwf.1]
          · have hnotmem : cid ∉ ids.filter (fun x => x != cid) := by
              simp [List.mem_filter]
            simp only [Hub.processUnregister, hE, if_false, Bool.false_eq_true,
              alLookup_insert_self, huid, if_neg hnotmem]
      next hmem =>
        rw [Option.some_inj] at hrun
        subst hrun
        simp [Hub.processUnregister, hp, hcl, hmem]

/-- Unregistering a client that is not in the mapping (never admitted, or
already removed) returns the state unchanged and closes nothing. -/
theorem processUnregister_not_member (h : Hub) (cid : Nat)
    (habs : ∀ c, alLookup h.pool cid = some c →
      ∀ ids, alLookup h.clients c.userID = some ids → cid ∉ ids) :
    Hub.processUnregister h cid = some h := by
  cases hp : alLookup h.pool cid with
  | none => simp [Hub.processUnregister, hp]
  | some c =>
    cases hcl : alLookup h.clients c.userID with
    | none => simp [Hub.processUnregister, hp, hcl]
    | some ids => simp [Hub.processUnregister, hp, hcl, habs c hp ids hcl]

/-- Whatever a broadcast-processing step does, it never touches the user
mapping. -/
theorem processBroadcastStep_clients (h h' : Hub)
    (hrun : Hub.processBroadcastStep h = some h') : h'.clients = h.clients := by
  rw [Hub.processBroadcastStep] at hrun
  split at hrun
  · rw [Option.some_inj] at hrun
    subst hrun
    rfl
  next =>
    rename_i uid data rest heq
    rw [Hub.processBroadcast] at hrun
    dsimp only at hrun
    cases hs : sendAll h.pool h.pendingUnregister ((alLookup h.clients uid).getD []) data with
    | none => rw [hs] at hrun; exact Option.noConfusion hrun
    | some q =>
      rw [hs] at hrun
      simp only [Option.map_some'] at hrun
      rw [Option.some_inj] at hrun
      subst hrun
      rfl

/-! ### Fan-out specification -/

/-- Behaviour of the fan-out loop over a duplicate-free list of clients whose
send channels are all open: it never panics, leaves clients outside the list
untouched, only ever appends to the pending unregister requests, and for each
targeted client either appends the data (buffer has room) or leaves the
client unchanged and schedules its removal (buffer full). -/
theorem sendAll_spec (data : Data) :
    ∀ (ids : List Nat) (pool : List (Nat × Client)) (pending : List Nat),
    ids.Nodup →
    (∀ cid ∈ ids, ∃ c, alLookup pool cid = some c ∧ c.sendClosed = false) →
    ∃ pool' pending', sendAll pool pending ids data = some (pool', pending') ∧
      (∀ k, k ∉ ids → alLookup pool' k = alLookup pool k) ∧
      (∀ x ∈ pending, x ∈ pending') ∧
      (∀ cid ∈ ids, ∀ c, alLookup pool cid = some c →
        (c.send.length < clientSendCap →
          alLookup pool' cid = some { c with send := c.send ++ [data] }) ∧
        (clientSendCap ≤ c.send.length →
          alLookup pool' cid = some c ∧ cid ∈ pending')) := by
  intro ids
  induction ids with
  | nil =>
    intro pool pending _ _
    exact ⟨pool, pending, by simp [sendAll], fun k _ => rfl, fun x hx => hx,
      fun cid hcid => absurd hcid (List.not_mem_nil cid)⟩
  | cons cid rest ih =>
    intro pool pending hnd hfound
    obtain ⟨c, hc, hopen⟩ := hfound cid (List.mem_cons_self cid rest)
    rw [List.nodup_cons] at hnd
    obtain ⟨hcid, hndr⟩ := hnd
    by_cases hroom : c.send.length < clientSendCap
    · have hsend : c.Send data = some (true, { c with send := c.send ++ [data] }) := by
        simp [Client.Send, hopen, hroom]
      have hstep : sendAll pool pending (cid :: rest) data =
          sendAll (alInsert pool cid { c with send := c.send ++ [data] }) pending rest data := by
        simp only [sendAll, hc, hsend]
      have hfound2 : ∀ k ∈ rest, ∃ c₁,
          alLookup (alInsert pool cid { c with send := c.send ++ [data] }) k = some c₁ ∧
          c₁.sendClosed = false := by
        intro k hk
        have hkne : k ≠ cid := fun he => hcid (he ▸ hk)
        rw [alLookup_insert_ne pool cid k _ hkne]
        exact hfound k (List.mem_cons_of_mem _ hk)
      obtain ⟨pool', pending', hrun, hframe, hpmono, hper⟩ :=
        ih (alInsert pool cid { c with send := c.send ++ [data] }) pending hndr hfound2
      refine ⟨pool', pending', by rw [hstep]; exact hrun, ?_, hpmono, ?_⟩
      · intro k hk
        have hk1 : k ≠ cid := fun he => hk (he ▸ List.mem_cons_self cid rest)
        have hk2 : k ∉ rest := fun hm => hk (List.mem_cons_of_mem _ hm)
        rw [hframe k hk2, alLookup_insert_ne pool cid k _ hk1]
      · intro cid₀ hcid₀ c₀ hc₀
        rcases List.mem_cons.mp hcid₀ with he | hm
        · subst he
          rw [hc] at hc₀
          rw [Option.some_inj] at hc₀
          subst hc₀
          constructor
          · intro _
            rw [hframe cid₀ hcid, alLookup_insert_self]
          · intro hfull
            exact absurd hroom (by omega)
        · have hne : cid₀ ≠ cid := fun he => hcid (he ▸ hm)
          have hc₀' : alLookup (alInsert pool cid { c with send := c.send ++ [data] }) cid₀ =
              some c₀ := by
            rw [alLookup_insert_ne pool cid cid₀ _ hne]
            exact hc₀
          exact hper cid₀ hm c₀ hc₀'
    · have hsend : c.Send data = some (false, c) := by
        simp [Client.Send, hopen, hroom]
      have hstep : sendAll pool pending (cid :: rest) data =
          sendAll pool (pending ++ [cid]) rest data := by
        simp only [sendAll, hc, hsend]
      have hfound2 : ∀ k ∈ rest, ∃ c₁, alLookup pool k = some c₁ ∧ c₁.sendClosed = false :=
        fun k hk => hfound k (List.mem_cons_of_mem _ hk)
      obtain ⟨pool', pending', hrun, hframe, hpmono, hper⟩ :=
        ih pool (pending ++ [cid]) hndr hfound2
      refine ⟨pool', pending', by rw [hstep]; exact hrun, ?_, ?_, ?_⟩
      · intro k hk
        exact hframe k (fun hm => hk (List.mem_cons_of_mem _ hm))
      · intro x hx
        exact hpmono x (List.mem_append_left _ hx)
      · intro cid₀ hcid₀ c₀ hc₀
        rcases List.mem_cons.mp hcid₀ with he | hm
        · subst he
          rw [hc] at hc₀
          rw [Option.some_inj] at hc₀
          subst hc₀
          constructor
          · intro hr
            exact absurd hr hroom
          · intro _
            refine ⟨?_, hpmono cid₀ (List.mem_append_right _ (List.mem_singleton_self cid₀))⟩
            rw [hframe cid₀ hcid, hc]
        · exact hper cid₀ hm c₀ hc₀

/-! ### Hub-level broadcast specification and further unregister lemmas -/

theorem setInsert_ne_nil (s : List Nat) (x : Nat) : setInsert s x ≠ [] := by
  rw [setInsert]
  by_cases hx : x ∈ s
  · rw [if_pos hx]
    exact List.ne_nil_of_mem hx
  · rw [if_neg hx]
    simp

/-- Fan-out of one user message at the hub level: on a well-formed hub it
never panics, does not change the mapping or the queue, touches only the
target user's clients, and treats each of them according to the room left in
its queue. -/
theorem processBroadcast_spec (h : Hub) (uid : Int) (data : Data) (hwf : WF h) :
    ∃ pool' pending',
      Hub.processBroadcast h uid data =
        some { h with pool := pool', pendingUnregister := pending' } ∧
      (∀ k, k ∉ (alLookup h.clients uid).getD [] →
        alLookup pool' k = alLookup h.pool k) ∧
      (∀ x ∈ h.pendingUnregister, x ∈ pending') ∧
      (∀ cid ∈ (alLookup h.clients uid).getD [], ∀ c, alLookup h.pool cid = some c →
        (c.send.length < clientSendCap →
          alLookup pool' cid = some { c with send := c.send ++ [data] }) ∧
        (clientSendCap ≤ c.send.length →
          alLookup pool' cid = some c ∧ cid ∈ pending')) := by
  have hids : ((alLookup h.clients uid).getD []).Nodup ∧
      (∀ cid ∈ (alLookup h.clients uid).getD [], ∃ c, alLookup h.pool cid = some c ∧
        c.sendClosed = false) := by
    cases hcl : alLookup h.clients uid with
    | none => simp
    | some ids =>
      refine ⟨hwf.2.1 (uid, ids) (alLookup_mem h.clients uid ids hcl), ?_⟩
      intro cid hcid
      obtain ⟨c, hc, _, hopen⟩ := ownerOK_found h hwf.2.2.2 uid ids hcl cid hcid
      exact ⟨c, hc, hopen⟩
  obtain ⟨pool', pending', hrun, hframe, hmono, hper⟩ :=
    sendAll_spec data ((alLookup h.clients uid).getD []) h.pool h.pendingUnregister
      hids.1 hids.2
  refine ⟨pool', pending', ?_, hframe, hmono, hper⟩
  rw [Hub.processBroadcast, hrun]
  rfl

/-- A successful unregister preserves the no-empty-entry invariant. -/
theorem processUnregister_nonEmpty (h : Hub) (cid : Nat) (hne : nonEmptyInv h) (h' : Hub)
    (hrun : Hub.processUnregister h cid = some h') : nonEmptyInv h' := by
  rw [Hub.processUnregister] at hrun
  split at hrun
  next =>
    rw [Option.some_inj] at hrun
    subst hrun
    exact hne
  next c hp =>
    split at hrun
    next =>
      rw [Option.some_inj] at hrun
      subst hrun
      exact hne
    next ids hcl =>
      split at hrun
      next hmem =>
        split at hrun
        next => exact Option.noConfusion hrun
        next c' hclose =>
          simp only [Option.some_inj] at hrun
          subst hrun
          intro p hp₂
          dsimp only at hp₂
          by_cases hE : (ids.filter (fun x => x != cid)).isEmpty = true
          · rw [if_pos hE] at hp₂
            exact hne p (mem_alErase _ _ _ hp₂)
          · rw [if_neg hE] at hp₂
            rcases mem_alInsert _ _ _ p hp₂ with hold | hnew
            · exact hne p hold
            · rw [hnew]
              dsimp only
              intro hnil
              apply hE
              rw [hnil]
              rfl
      next hmem =>
        rw [Option.some_inj] at hrun
        subst hrun
        exact hne

/-- Unregistering a user's last session erases the user's map entry. -/
theorem processUnregister_clients_last (h : Hub) (cid : Nat) (c : Client) (h' : Hub)
    (hp : alLookup h.pool cid = some c) (hcl : alLookup h.clients c.userID = some [cid])
    (hrun : Hub.processUnregister h cid = some h') :
    h'.clients = alErase h.clients c.userID := by
  rw [Hub.processUnregister] at hrun
  split at hrun
  next hp₀ =>
    rw [hp₀] at hp
    exact Option.noConfusion hp
  next c₀ hp₀ =>
    rw [hp₀] at hp
    rw [Option.some_inj] at hp
    subst hp
    split at hrun
    next hcl₀ =>
      rw [hcl₀] at hcl
      exact Option.noConfusion hcl
    next ids hcl₀ =>
      rw [hcl₀] at hcl
      rw [Option.some_inj] at hcl
      subst hcl
      split at hrun
      next hmem =>
        split at hrun
        next => exact Option.noConfusion hrun
        next c' hclose =>
          simp only [Option.some_inj] at hrun
          subst hrun
          have hfilter : [cid].filter (fun x => x != cid) = [] := by simp
          dsimp only
          rw [hfilter]
          rfl
      next hmem => exact absurd (List.mem_singleton_self cid) hmem

/-! ### Claim theorems -/

/-- C7: for every session with an open channel and every envelope, `Client.Send`
never blocks: with fewer than the fixed capacity of 256 entries queued it
returns true and appends the envelope in FIFO position; at capacity it
returns false and leaves the queue unchanged. -/
theorem client_send_nonblocking (c : Client) (data : Data)
    (hopen : c.sendClosed = false) :
    clientSendCap = 256 ∧
    (c.send.length < clientSendCap →
      Client.Send c data = some (true, { c with send := c.send ++ [data] })) ∧
    (clientSendCap ≤ c.send.length → Client.Send c data = some (false, c)) := by
  refine ⟨rfl, ?_, ?_⟩
  · intro hroom
    simp [Client.Send, hopen, hroom]
  · intro hfull
    simp [Client.Send, hopen, Nat.not_lt.mpr hfull]

/-- Witness for C7 at a concrete fresh client. -/
theorem client_send_nonblocking_witness :
    (NewClient 7).sendClosed = false ∧ (NewClient 7).send.length < clientSendCap ∧
    Client.Send (NewClient 7) "hi" =
      some (true, { NewClient 7 with send := (NewClient 7).send ++ ["hi"] }) :=
  ⟨rfl, by decide, (client_send_nonblocking (NewClient 7) "hi" rfl).2.1 (by decide)⟩

/-- C9: when JSON serialization of the message fails, `SendToUser` returns
with the hub unchanged — nothing is submitted to the broadcast ingress
queue and no error is surfaced. -/
theorem marshal_failure_drops (h : Hub) (uid : Int) :
    Hub.SendToUser h uid none = h := rfl

/-- C10: the upgrader's `CheckOrigin` accepts every request, whatever its
Origin header. -/
theorem check_origin_accepts_all (r : HTTPRequest) : CheckOrigin r = true := rfl

/-- C5: the notification ingress queue is bounded at 256; a `SendToUser`
made while the queue is full drops the entire request, changing no hub
state, and the queue never grows beyond the bound. -/
theorem ingress_bounded_drop (h : Hub) (uid : Int) (data : Data) :
    hubBroadcastCap = 256 ∧
    (hubBroadcastCap ≤ h.broadcastQ.length → Hub.SendToUser h uid (some data) = h) ∧
    (h.broadcastQ.length ≤ hubBroadcastCap →
      (Hub.SendToUser h uid (some data)).broadcastQ.length ≤ hubBroadcastCap) := by
  refine ⟨rfl, ?_, ?_⟩
  · intro hfull
    simp [Hub.SendToUser, Nat.not_lt.mpr hfull]
  · intro hle
    by_cases hroom : h.broadcastQ.length < hubBroadcastCap
    · simp only [Hub.SendToUser, if_pos hroom, List.length_append, List.length_singleton]
      omega
    · simp [Hub.SendToUser, hroom, hle]

/-- Witness for C5 at a hub whose ingress queue holds 256 requests. -/
theorem ingress_bounded_drop_witness :
    hubBroadcastCap ≤ hubFull.broadcastQ.length ∧
    Hub.SendToUser hubFull 9 (some "y") = hubFull :=
  ⟨by simp [hubFull], (ingress_bounded_drop hubFull 9 "y").2.1 (by simp [hubFull])⟩

/-- Counterexample to C2 as stated: `Close()` is not idempotent — the second
`close(c.send)` on the same session is a close of an already-closed channel,
which panics rather than being a safe no-op. -/
theorem close_twice_panics :
    Client.Close (NewClient 1) = some { userID := 1, send := [], sendClosed := true } ∧
    Client.Close { userID := 1, send := [], sendClosed := true } = none := by
  constructor
  · rfl
  · rfl

/-- Counterexample to C1 as stated: a `SendToUser` call made while no session
of user 7 is admitted, followed by the admission of session 1 and then the
control loop's processing of the broadcast, delivers the envelope to session
1 — a session admitted *after* the call receives the envelope, because
fan-out happens at processing time, not at call time. -/
theorem notify_after_admit_counterexample :
    alLookup cexHub.clients 7 = none ∧
    Hub.processBroadcastStep
        (Hub.processRegister (Hub.SendToUser cexHub 7 (some "env")) 1) =
      some { clients := [(7, [1])],
             pool := [(1, { userID := 7, send := ["env"], sendClosed := false })],
             broadcastQ := [], pendingUnregister := [] } := by
  constructor
  · rfl
  · rfl

/-- C3: processing a Remove (unregister) request is idempotent: it never
panics or errors on a well-formed hub; removing a session whose pointer is
unknown, or one not present in the mapping, returns the state unchanged and
closes nothing; and after a successful removal a second removal of the same
session returns the state unchanged. -/
theorem unregister_idempotent (h : Hub) (cid : Nat) (hwf : WF h) :
    (∃ h', Hub.processUnregister h cid = some h') ∧
    (alLookup h.pool cid = none → Hub.processUnregister h cid = some h) ∧
    (∀ c, alLookup h.pool cid = some c →
      (∀ ids, alLookup h.clients c.userID = some ids → cid ∉ ids) →
      Hub.processUnregister h cid = some h) ∧
    (∀ h', Hub.processUnregister h cid = some h' →
      Hub.processUnregister h' cid = some h') := by
  refine ⟨processUnregister_total h cid hwf, ?_, ?_, processUnregister_idem h cid hwf⟩
  · intro hp
    apply processUnregister_not_member
    intro c hc
    rw [hp] at hc
    exact Option.noConfusion hc
  · intro c hp habs
    apply processUnregister_not_member
    intro c₀ hc₀ ids hids
    rw [hp] at hc₀
    rw [Option.some_inj] at hc₀
    subst hc₀
    exact habs ids hids

/-- Witness for C3: unregistering the unknown session 3 on a concrete
well-formed hub is a no-op. -/
theorem unregister_idempotent_witness :
    WF demoHub ∧ alLookup demoHub.pool 3 = none ∧
    Hub.processUnregister demoHub 3 = some demoHub :=
  ⟨by decide, by decide, (unregister_idempotent demoHub 3 (by decide)).2.1 (by decide)⟩

/-- C2 (amended): `Close()` closes the session's queue, but it is not
idempotent — a second close panics.  The Registry's removal path closes a
session's queue at most once (it closes only a session still present in the
mapping and removes it in the same step, so a repeated Remove closes
nothing further and never fails), and the outbound loop observes the closed
queue as a stop signal only once the already-queued writes are drained. -/
theorem close_once_removal_path (h : Hub) (cid : Nat) (c : Client) (hwf : WF h) :
    (c.sendClosed = false → Client.Close c = some { c with sendClosed := true }) ∧
    (c.sendClosed = true → (Client.recv c = RecvResult.closedEnd ↔ c.send = [])) ∧
    (∃ h', Hub.processUnregister h cid = some h') ∧
    (∀ h', Hub.processUnregister h cid = some h' →
      Hub.processUnregister h' cid = some h') := by
  refine ⟨?_, ?_, processUnregister_total h cid hwf, processUnregister_idem h cid hwf⟩
  · intro hopen
    simp [Client.Close, hopen]
  · intro hclosed
    cases hsend : c.send with
    | nil => simp [Client.recv, hsend, hclosed]
    | cons d rest => simp [Client.recv, hsend]

/-- Witness for C2 (amended) at a concrete open client and well-formed hub. -/
theorem close_once_removal_path_witness :
    WF demoHub ∧ demoClient.sendClosed = false ∧
    Client.Close demoClient = some { demoClient with sendClosed := true } :=
  ⟨by decide, rfl, (close_once_removal_path demoHub 1 demoClient (by decide)).1 rfl⟩

/-- C6: every registry operation (register, unregister, broadcast fan-out)
preserves the invariant that every user present in the mapping has a
non-empty session set; removing a user's last session deletes the map entry
entirely, after which `ClientCount` is 0 and `IsOnline` is false. -/
theorem nonempty_mapping_invariant (h : Hub) (cid : Nat)
    (hne : nonEmptyInv h) (hnd : (h.clients.map Prod.fst).Nodup) :
    nonEmptyInv (Hub.processRegister h cid) ∧
    (∀ h', Hub.processUnregister h cid = some h' → nonEmptyInv h') ∧
    (∀ h', Hub.processBroadcastStep h = some h' → nonEmptyInv h') ∧
    (∀ c h', alLookup h.pool cid = some c →
      alLookup h.clients c.userID = some [cid] →
      Hub.processUnregister h cid = some h' →
      alLookup h'.clients c.userID = none ∧ Hub.ClientCount h' c.userID = 0 ∧
        Hub.IsOnline h' c.userID = false) := by
  refine ⟨?_, fun h' => processUnregister_nonEmpty h cid hne h', ?_, ?_⟩
  · cases hp : alLookup h.pool cid with
    | none =>
      simp only [Hub.processRegister, hp]
      exact hne
    | some c =>
      intro p hp₂
      simp only [Hub.processRegister, hp] at hp₂
      rcases mem_alInsert _ _ _ p hp₂ with hold | hnew
      · exact hne p hold
      · rw [hnew]
        exact setInsert_ne_nil _ _
  · intro h' hrun p hp₂
    rw [processBroadcastStep_clients h h' hrun] at hp₂
    exact hne p hp₂
  · intro c h' hp hcl hrun
    have hcl' := processUnregister_clients_last h cid c h' hp hcl hrun
    have hlook : alLookup h'.clients c.userID = none := by
      rw [hcl']
      exact alLookup_erase_self h.clients c.userID hnd
    refine ⟨hlook, ?_, ?_⟩
    · rw [Hub.ClientCount, hlook]
      rfl
    · rw [Hub.IsOnline, Hub.ClientCount, hlook]
      rfl

/-- Witness for C6 at a concrete hub satisfying the invariant. -/
theorem nonempty_mapping_invariant_witness :
    nonEmptyInv demoHub ∧ (demoHub.clients.map Prod.fst).Nodup ∧
    nonEmptyInv (Hub.processRegister demoHub 1) :=
  ⟨by decide, by decide, (nonempty_mapping_invariant demoHub 1 (by decide) (by decide)).1⟩

/-- C4: when the control loop fans an envelope out to a user, a session of
that user whose outbound queue is at capacity does not block the loop: the
envelope is dropped for that session only, the session is scheduled for
asynchronous removal as a pending unregister request (the mapping itself is
untouched by the fan-out — removal is never performed synchronously inside
it), and every other session with room still has the envelope appended. -/
theorem fanout_full_queue_async_removal (h : Hub) (uid : Int) (data : Data)
    (rest : List (Int × Data)) (hwf : WF h) (hq : h.broadcastQ = (uid, data) :: rest) :
    ∃ h', Hub.processBroadcastStep h = some h' ∧
      h'.clients = h.clients ∧
      (∀ cid ∈ (alLookup h.clients uid).getD [], ∀ c, alLookup h.pool cid = some c →
        clientSendCap ≤ c.send.length →
          alLookup h'.pool cid = some c ∧ cid ∈ h'.pendingUnregister) ∧
      (∀ cid ∈ (alLookup h.clients uid).getD [], ∀ c, alLookup h.pool cid = some c →
        c.send.length < clientSendCap →
          alLookup h'.pool cid = some { c with send := c.send ++ [data] }) := by
  obtain ⟨pool', pending', hrun, hframe, hmono, hper⟩ :=
    processBroadcast_spec { h with broadcastQ := rest } uid data hwf
  have hstep : Hub.processBroadcastStep h =
      Hub.processBroadcast { h with broadcastQ := rest } uid data := by
    rw [Hub.processBroadcastStep, hq]
  refine ⟨{ h with broadcastQ := rest, pool := pool', pendingUnregister := pending' },
    ?_, rfl, ?_, ?_⟩
  · rw [hstep, hrun]
  · intro cid hcid c hc hfull
    exact (hper cid hcid c hc).2 hfull
  · intro cid hcid c hc hroom
    exact (hper cid hcid c hc).1 hroom

/-- Witness for C4 at a concrete hub where user 7 has one session with room
and one with a saturated queue. -/
theorem fanout_full_queue_witness :
    WF demoHub ∧ demoHub.broadcastQ = (7, "env") :: [] ∧
    (∃ h', Hub.processBroadcastStep demoHub = some h' ∧
      h'.clients = demoHub.clients ∧
      (∀ cid ∈ (alLookup demoHub.clients 7).getD [], ∀ c,
        alLookup demoHub.pool cid = some c →
        clientSendCap ≤ c.send.length →
          alLookup h'.pool cid = some c ∧ cid ∈ h'.pendingUnregister) ∧
      (∀ cid ∈ (alLookup demoHub.clients 7).getD [], ∀ c,
        alLookup demoHub.pool cid = some c →
        c.send.length < clientSendCap →
          alLookup h'.pool cid = some { c with send := c.send ++ ["env"] })) :=
  ⟨by decide, rfl, fanout_full_queue_async_removal demoHub 7 "env" [] (by decide) rfl⟩

/-- C1 (amended): when the control loop processes the broadcast request
produced by a `SendToUser` call, the identical serialized envelope is
offered to exactly the sessions of the target user admitted at that
processing time — appended to each such session's queue when it has room —
while the queue of every session not then admitted under that user is left
untouched. -/
theorem broadcast_fanout_at_processing_time (h : Hub) (uid : Int) (data : Data)
    (rest : List (Int × Data)) (hwf : WF h) (hq : h.broadcastQ = (uid, data) :: rest) :
    ∃ h', Hub.processBroadcastStep h = some h' ∧
      (∀ cid ∈ (alLookup h.clients uid).getD [], ∀ c, alLookup h.pool cid = some c →
        (c.send.length < clientSendCap →
          alLookup h'.pool cid = some { c with send := c.send ++ [data] }) ∧
        (clientSendCap ≤ c.send.length → alLookup h'.pool cid = some c)) ∧
      (∀ k, k ∉ (alLookup h.clients uid).getD [] →
        alLookup h'.pool k = alLookup h.pool k) := by
  obtain ⟨pool', pending', hrun, hframe, hmono, hper⟩ :=
    processBroadcast_spec { h with broadcastQ := rest } uid data hwf
  have hstep : Hub.processBroadcastStep h =
      Hub.processBroadcast { h with broadcastQ := rest } uid data := by
    rw [Hub.processBroadcastStep, hq]
  refine ⟨{ h with broadcastQ := rest, pool := pool', pendingUnregister := pending' },
    ?_, ?_, hframe⟩
  · rw [hstep, hrun]
  · intro cid hcid c hc
    exact ⟨(hper cid hcid c hc).1, fun hfull => ((hper cid hcid c hc).2 hfull).1⟩

/-- Witness for the amended C1 at a concrete hub. -/
theorem broadcast_fanout_processing_witness :
    WF demoHub ∧ demoHub.broadcastQ = (7, "env") :: [] ∧
    (∃ h', Hub.processBroadcastStep demoHub = some h' ∧
      (∀ cid ∈ (alLookup demoHub.clients 7).getD [], ∀ c,
        alLookup demoHub.pool cid = some c →
        (c.send.length < clientSendCap →
          alLookup h'.pool cid = some { c with send := c.send ++ ["env"] }) ∧
        (clientSendCap ≤ c.send.length → alLookup h'.pool cid = some c)) ∧
      (∀ k, k ∉ (alLookup demoHub.clients 7).getD [] →
        alLookup h'.pool k = alLookup demoHub.pool k)) :=
  ⟨by decide, rfl, broadcast_fanout_at_processing_time demoHub 7 "env" [] (by decide) rfl⟩

/-- Exhaustive description of the traces of the message-send handler: the
trace is empty (some guard rejected the request), or persistence succeeded
and exactly the recipient and then the sender are notified after the create
event, or persistence failed and the trace is the failed create alone. -/
theorem HandleSendMessage_cases (r : SendMessageRequest) :
    HandleSendMessage r = [] ∨
    ∃ rcpt, r.pathUserID = some rcpt ∧ rcpt ≠ r.senderID ∧
      ((r.createOk = true ∧ HandleSendMessage r =
          [HEvent.create r.senderID rcpt true, HEvent.notify rcpt,
           HEvent.notify r.senderID]) ∨
       (r.createOk = false ∧ HandleSendMessage r =
          [HEvent.create r.senderID rcpt false])) := by
  cases hpath : r.pathUserID with
  | none => exact Or.inl (by simp [HandleSendMessage, hpath])
  | some rcpt =>
    by_cases hself : rcpt = r.senderID
    · exact Or.inl (by simp [HandleSendMessage, hpath, hself])
    · cases hform : r.parseFormOk with
      | false => exact Or.inl (by simp [HandleSendMessage, hpath, hself, hform])
      | true =>
        cases hcontent : r.contentValid with
        | false =>
          exact Or.inl (by simp [HandleSendMessage, hpath, hself, hform, hcontent])
        | true =>
          cases hrcpt : r.recipientExists with
          | false =>
            exact Or.inl
              (by simp [HandleSendMessage, hpath, hself, hform, hcontent, hrcpt])
          | true =>
            cases hcreate : r.createOk with
            | true =>
              refine Or.inr ⟨rcpt, rfl, hself, Or.inl ⟨rfl, ?_⟩⟩
              simp [HandleSendMessage, hpath, hself, hform, hcontent, hrcpt, hcreate]
            | false =>
              refine Or.inr ⟨rcpt, rfl, hself, Or.inr ⟨rfl, ?_⟩⟩
              simp [HandleSendMessage, hpath, hself, hform, hcontent, hrcpt, hcreate]

/-- C8: in the message-send handler, a notification can only occur when the
message was successfully persisted first — the successful `CreateMessage`
event strictly precedes both notifications in the handler's trace, and
`SendToUser` is called exactly once for the recipient and exactly once for
the sender; if persistence fails, no notification is made at all. -/
theorem persist_before_notify (r : SendMessageRequest) :
    (∀ u, HEvent.notify u ∈ HandleSendMessage r →
      ∃ rcpt, r.pathUserID = some rcpt ∧ rcpt ≠ r.senderID ∧ r.createOk = true ∧
        HandleSendMessage r =
          [HEvent.create r.senderID rcpt true, HEvent.notify rcpt,
           HEvent.notify r.senderID] ∧
        (HandleSendMessage r).count (HEvent.notify rcpt) = 1 ∧
        (HandleSendMessage r).count (HEvent.notify r.senderID) = 1) ∧
    (r.createOk = false → ∀ u, HEvent.notify u ∉ HandleSendMessage r) := by
  rcases HandleSendMessage_cases r with hnil | ⟨rcpt, hpath, hself, hok | hfail⟩
  · constructor
    · intro u hu
      rw [hnil] at hu
      exact absurd hu (List.not_mem_nil _)
    · intro _ u
      rw [hnil]
      exact List.not_mem_nil _
  · obtain ⟨hcreate, htr⟩ := hok
    constructor
    · intro u _
      have hself' : r.senderID ≠ rcpt := fun he => hself he.symm
      refine ⟨rcpt, hpath, hself, hcreate, htr, ?_, ?_⟩
      · rw [htr]
        simp [List.count_cons, hself, hself']
      · rw [htr]
        simp [List.count_cons, hself, hself']
    · intro hfalse
      rw [hcreate] at hfalse
      exact Bool.noConfusion hfalse
  · obtain ⟨hcreate, htr⟩ := hfail
    constructor
    · intro u hu
      rw [htr] at hu
      simp at hu
    · intro _ u hu
      rw [htr] at hu
      simp at hu

/-- Witness for C8 at a fully successful request (recipient 5, sender 3). -/
theorem persist_before_notify_witness :
    HEvent.notify 5 ∈ HandleSendMessage sendReqOK ∧
    (∃ rcpt, sendReqOK.pathUserID = some rcpt ∧ rcpt ≠ sendReqOK.senderID ∧
      sendReqOK.createOk = true ∧
      HandleSendMessage sendReqOK =
        [HEvent.create sendReqOK.senderID rcpt true, HEvent.notify rcpt,
         HEvent.notify sendReqOK.senderID] ∧
      (HandleSendMessage sendReqOK).count (HEvent.notify rcpt) = 1 ∧
      (HandleSendMessage sendReqOK).count (HEvent.notify sendReqOK.senderID) = 1) :=
  ⟨by decide, (persist_before_notify sendReqOK).1 5 (by decide)⟩

end Wantok
